import Mathlib

/-!
Verification of the request-dispatch and secret-lifecycle core of the
vault repository, following `spec.md` and the sources
`logical/framework/backend_test.go` and
`builtin/logical/cassandra/secret_creds.go`.

The framework implementation itself (router, field coercion, WAL
rollback) is exercised by `backend_test.go` but its implementation file
is not part of the source tree given here, so those definitions are
modelled from the spec; the Cassandra secret lifecycle callbacks are
embedded from `secret_creds.go` directly.

Conventions of the embedding:
* Go `map`s become association lists looked up with `alookup`
  (first binding wins, which also gives the capture-over-raw priority).
* Go `interface{}` request values become the inductive `GoVal`;
  typed (coerced) values become `Value`.
* `time.Time` / `time.Duration` become `Nat` (an abstract clock tick;
  the unit is irrelevant to the properties proved here).
* Effects are made explicit: the rollback pass returns the list of
  cleanup invocations it performed, and the Cassandra callbacks return
  the list of storage lookups / CQL statements they executed, so that
  "never invoked" claims are statements about those traces.
-/

namespace Vault

/-- Association-list lookup: the first binding for the key wins. -/
def alookup {κ α : Type} [DecidableEq κ] : List (κ × α) → κ → Option α
  | [], _ => none
  | (k, v) :: rest, key => if k = key then some v else alookup rest key

/-! ## Regular-expression patterns

`Path.Pattern` in the Go source is a string compiled by `regexp` with
`^...$` anchoring.  The embedding represents the compiled pattern as an
abstract syntax tree `Regex`; a pattern string with no metacharacters
corresponds to `Regex.lit`. -/

/-- Character classes appearing in the test patterns: `\d`, `\w`, `.`. -/
inductive CClass : Type
  | digit : CClass
  | word : CClass
  | dot : CClass
deriving DecidableEq, Repr

def charMatches : CClass → Char → Bool
  | CClass.digit, c => c.isDigit
  | CClass.word, c => c.isAlphanum || c = '_'
  | CClass.dot, _ => true

/-- Regular expressions with named capture groups (`(?P<name>...)`). -/
inductive Regex : Type
  | eps : Regex
  | char : Char → Regex
  | cls : CClass → Regex
  | cat : Regex → Regex → Regex
  | alt : Regex → Regex → Regex
  | star : Regex → Regex
  | group : String → Regex → Regex
deriving Repr

/-- The literal regex for a list of characters (no metacharacters). -/
def Regex.litL : List Char → Regex
  | [] => Regex.eps
  | c :: cs => Regex.cat (Regex.char c) (Regex.litL cs)

/-- The literal regex for a string with no regex metacharacters. -/
def Regex.lit (s : String) : Regex := Regex.litL s.toList

/-- `r+` as `r` followed by `r*`. -/
def Regex.plus (r : Regex) : Regex := Regex.cat r (Regex.star r)

/-- Named-capture results of a match. -/
abbrev Caps := List (String × String)

/-- One fuel level of the backtracking matcher: all ways to match `r`
against some front part of the input, each with the captures made and
the characters left over.  `prev` resolves a further `star` unrolling
at the next-lower fuel level, so the recursion here is structural in
the regex. -/
def mtchStep (prev : Regex → List Char → List (Caps × List Char)) :
    Regex → List Char → List (Caps × List Char)
  | Regex.eps, s => [([], s)]
  | Regex.char _, [] => []
  | Regex.char c, x :: xs => if x = c then [([], xs)] else []
  | Regex.cls _, [] => []
  | Regex.cls k, x :: xs => if charMatches k x then [([], xs)] else []
  | Regex.alt r1 r2, s => mtchStep prev r1 s ++ mtchStep prev r2 s
  | Regex.cat r1 r2, s =>
      (mtchStep prev r1 s).flatMap (fun p =>
        (mtchStep prev r2 p.2).map (fun q => (p.1 ++ q.1, q.2)))
  | Regex.star r, s =>
      ([], s) :: (mtchStep prev r s).flatMap (fun p =>
        (prev (Regex.star r) p.2).map (fun q => (p.1 ++ q.1, q.2)))
  | Regex.group n r, s =>
      (mtchStep prev r s).map (fun p =>
        ((n, String.mk (s.take (s.length - p.2.length))) :: p.1, p.2))

/-- Fuel-indexed matcher; each `star` unrolling consumes one fuel
level.  With the fuel exhausted a `star` matches only its empty
unrolling, so every result at every fuel level is a genuine match. -/
def mtch : Nat → Regex → List Char → List (Caps × List Char)
  | 0 => mtchStep (fun _ _ => [])
  | fuel + 1 => mtchStep (mtch fuel)

/-- Anchored full match of a pattern against a path string (the Go
side compiles `Pattern` wrapped in `^...$`). -/
def fullMatch (r : Regex) (s : String) : Bool :=
  (mtch (s.toList.length + 1) r s.toList).any (fun p => p.2.isEmpty)

/-- Captures of the first anchored full match, `none` when the pattern
does not match the whole string. -/
def capFull (r : Regex) (s : String) : Option Caps :=
  ((mtch (s.toList.length + 1) r s.toList).filter
    (fun p => p.2.isEmpty)).head?.map (fun p => p.1)

example : fullMatch (Regex.lit "foo") "foo" = true := by decide
example : fullMatch (Regex.lit "foo") "bar" = false := by decide
example :
    fullMatch (Regex.cat (Regex.char 'f') (Regex.plus (Regex.char 'o')))
      "foo" = true := by decide
example :
    capFull
      (Regex.cat (Regex.lit "foo/") (Regex.group "value" (Regex.plus (Regex.cls CClass.digit))))
      "foo/42" = some [("value", "42")] := by decide

/-! ## Field schemas and coercion

Modelled from the spec: the framework's `FieldSchema` / `FieldData`
layer (`logical/framework`) is not among the given source files, only
its tests are.  The definitions below follow spec sections 3 and 4.2. -/

/-- Go `interface{}` values appearing in request data, WAL payloads and
secret internal data. -/
inductive GoVal : Type
  | str : String → GoVal
  | int : Int → GoVal
  | boolV : Bool → GoVal
deriving DecidableEq, Repr

/-- Declared field types (spec section 3: string, integer, boolean,
duration). -/
inductive FieldType : Type
  | TypeString : FieldType
  | TypeInt : FieldType
  | TypeBool : FieldType
  | TypeDurationSecond : FieldType
deriving DecidableEq, Repr

/-- Typed (coerced) field values. -/
inductive Value : Type
  | vstr : String → Value
  | vint : Int → Value
  | vbool : Bool → Value
  | vdur : Nat → Value
deriving DecidableEq, Repr

/-- The canonical zero value of each declared type (spec section 4.2:
empty string, zero integer, false boolean, zero duration). -/
def zeroValue : FieldType → Value
  | FieldType.TypeString => Value.vstr ""
  | FieldType.TypeInt => Value.vint 0
  | FieldType.TypeBool => Value.vbool false
  | FieldType.TypeDurationSecond => Value.vdur 0

/-- Accumulating decimal parser over a character list; `none` when the
list holds a non-digit or when nothing at all was consumed. -/
def parseDigitsAux : Option Nat → List Char → Option Nat
  | acc, [] => acc
  | acc, c :: rest =>
      if c.isDigit then
        parseDigitsAux (some ((acc.getD 0) * 10 + (c.toNat - 48))) rest
      else none

/-- Decimal integer parser for coercion of textual input (the model of
`strconv.Atoi`-style parsing): an optional leading minus sign followed
by one or more digits. -/
def parseIntL : List Char → Option Int
  | [] => none
  | c :: rest =>
      if c = '-' then (parseDigitsAux none rest).map (fun n => -(n : Int))
      else (parseDigitsAux none (c :: rest)).map (fun n => (n : Int))

def parseIntString (s : String) : Option Int := parseIntL s.toList

/-- Well-formed textual representation of an integer: an optional
leading minus sign followed by a nonempty run of decimal digits. -/
def isDecimalIntL : List Char → Bool
  | [] => false
  | c :: rest =>
      if c = '-' then !rest.isEmpty && rest.all Char.isDigit
      else (c :: rest).all Char.isDigit

def isDecimalIntString (s : String) : Bool := isDecimalIntL s.toList

/-- Errors of the dispatch core (spec section 7 taxonomy). -/
inductive BErr : Type
  | ErrUnsupportedPath : BErr
  | ErrUnsupportedOperation : BErr
  | ErrCoercion : String → FieldType → BErr
  | ErrUnknownField : String → BErr
  | ErrCallback : String → BErr
deriving DecidableEq, Repr

/-- Modelled from the spec: coerce one raw value to a declared type; a
well-formed textual representation succeeds, malformed input fails with
a coercion error carrying the field name and the expected type. -/
def coerceValue (field : String) (t : FieldType) (raw : GoVal) : Except BErr Value :=
  match t, raw with
  | FieldType.TypeString, GoVal.str s => Except.ok (Value.vstr s)
  | FieldType.TypeString, GoVal.int n => Except.ok (Value.vstr (toString n))
  | FieldType.TypeInt, GoVal.int n => Except.ok (Value.vint n)
  | FieldType.TypeInt, GoVal.str s =>
      match parseIntString s with
      | some n => Except.ok (Value.vint n)
      | none => Except.error (BErr.ErrCoercion field t)
  | FieldType.TypeBool, GoVal.boolV b => Except.ok (Value.vbool b)
  | FieldType.TypeBool, GoVal.str s =>
      if s = "true" then Except.ok (Value.vbool true)
      else if s = "false" then Except.ok (Value.vbool false)
      else Except.error (BErr.ErrCoercion field t)
  | FieldType.TypeDurationSecond, GoVal.int n => Except.ok (Value.vdur n.toNat)
  | FieldType.TypeDurationSecond, GoVal.str s =>
      match parseIntString s with
      | some n => Except.ok (Value.vdur n.toNat)
      | none => Except.error (BErr.ErrCoercion field t)
  | _, _ => Except.error (BErr.ErrCoercion field t)

/-- A declared field: type tag, optional default, description
(`framework.FieldSchema`). -/
structure FieldSchema : Type where
  ftype : FieldType
  Default : Option Value
  Description : String
deriving DecidableEq, Repr

/-- Modelled from the spec: `DefaultOrZero` resolves the configured
default when set, else the type's canonical zero value, independent of
any request. -/
def FieldSchema.DefaultOrZero (s : FieldSchema) : Value :=
  match s.Default with
  | some v => v
  | none => zeroValue s.ftype

/-- The merged raw data of a request together with the schema of the
matched path (`framework.FieldData`). -/
structure FieldData : Type where
  Raw : List (String × GoVal)
  Schema : List (String × FieldSchema)

/-- Modelled from the spec: `Get(name)` coerces a present raw value to
the declared type, and resolves an absent one to default-or-zero. -/
def FieldData.Get (d : FieldData) (name : String) : Except BErr Value :=
  match alookup d.Schema name with
  | none => Except.error (BErr.ErrUnknownField name)
  | some s =>
      match alookup d.Raw name with
      | none => Except.ok s.DefaultOrZero
      | some raw => coerceValue name s.ftype raw

/-- Coerce every declared field of the schema, aborting at the first
failing field (spec section 7: coercion errors abort the request
before any callback executes). -/
def coerceAll (d : FieldData) : List (String × FieldSchema) → Except BErr (List (String × Value))
  | [] => Except.ok []
  | (n, _) :: rest =>
      match d.Get n with
      | Except.error e => Except.error e
      | Except.ok v =>
          match coerceAll d rest with
          | Except.error e => Except.error e
          | Except.ok vs => Except.ok ((n, v) :: vs)

/-! ## WAL storage and the rollback engine -/

/-- A persisted write-ahead-log entry (spec section 3). -/
structure WALEntry : Type where
  Kind : String
  Data : GoVal
  CreatedAt : Nat
deriving DecidableEq, Repr

/-- The WAL region of the storage collaborator, keyed uniquely. -/
abbrev Storage := List (String × WALEntry)

/-- Modelled from the spec: `PutWAL` persists a new WAL entry under a
fresh key with the current timestamp. -/
def PutWAL (st : Storage) (kind : String) (data : GoVal) (now : Nat) : Storage × String :=
  let key := "wal/" ++ toString st.length
  (st ++ [(key, WALEntry.mk kind data now)], key)

/-- Modelled from the spec: one rollback pass.  Entries younger than
`minAge` are left untouched and never attempted; for each entry whose
age is at least `minAge` the cleanup function is invoked once, the
entry is deleted on success and retained on failure.  The second
component is the trace of cleanup invocations `(key, kind, payload)`
performed by the pass. -/
def runRollback (clean : String → GoVal → Bool) (minAge now : Nat) :
    Storage → Storage × List (String × String × GoVal)
  | [] => ([], [])
  | (k, e) :: rest =>
      let r := runRollback clean minAge now rest
      if minAge ≤ now - e.CreatedAt then
        if clean e.Kind e.Data then (r.1, (k, e.Kind, e.Data) :: r.2)
        else ((k, e) :: r.1, (k, e.Kind, e.Data) :: r.2)
      else ((k, e) :: r.1, r.2)

/-! ## The backend: paths, routing, dispatch

Modelled from the spec (sections 3, 4.1, 4.3); the corresponding
framework implementation file is not among the given sources, only its
tests are. -/

/-- Operation kinds of `logical.Operation` exercised by the dispatch
core (`ReadOperation`, `WriteOperation`, `DeleteOperation`,
`HelpOperation`, `RollbackOperation`). -/
inductive Operation : Type
  | read : Operation
  | write : Operation
  | delete : Operation
  | help : Operation
  | rollback : Operation
deriving DecidableEq, Repr

/-- A response: a typed data mapping, and for secret renewal the
granted lease duration. -/
structure Response : Type where
  Data : List (String × Value)
  Lease : Option Nat
deriving DecidableEq, Repr

/-- A per-operation callback; it receives the coerced field data and
returns a response or an error. -/
abbrev OperationFunc := List (String × Value) → Except String Response

/-- A registered path: pattern, field schema, per-operation callback
table, help text (`framework.Path`). -/
structure Path : Type where
  Pattern : Regex
  Fields : List (String × FieldSchema)
  Callbacks : List (Operation × OperationFunc)
  HelpSynopsis : String
  HelpDescription : String

/-- The backend aggregate: ordered registered paths, the optional
rollback-cleanup function, and the minimum rollback age
(`framework.Backend`). -/
structure Backend : Type where
  Paths : List Path
  Rollback : Option (String → GoVal → Bool)
  RollbackMinAge : Nat

/-- Modelled from the spec: walk the registered paths in registration
order and return the first whose anchored pattern matches the whole
input path; `none` (not an error) when nothing matches. -/
def route (ps : List Path) (path : String) : Option Path :=
  match ps with
  | [] => none
  | p :: rest => if fullMatch p.Pattern path then some p else route rest path

/-- `Backend.Route` of the framework. -/
def Backend.Route (b : Backend) (path : String) : Option Path :=
  route b.Paths path

/-- An inbound logical request (`logical.Request`); `Now` models the
wall-clock instant at which the request is handled. -/
structure Request : Type where
  Operation : Operation
  Path : String
  Data : List (String × GoVal)
  Storage : Storage
  Now : Nat

/-- The outcome of handling a request: the response-or-error, the
storage state afterwards, and the trace of rollback-cleanup
invocations made while handling it. -/
structure HandleResult : Type where
  result : Except BErr (Option Response)
  storage : Storage
  cleanupCalls : List (String × String × GoVal)

/-- Captured path segments merged in front of the raw request data, so
that a capture takes precedence over a same-named raw key under
`alookup`. -/
def mergeCaps (caps : Caps) (raw : List (String × GoVal)) : List (String × GoVal) :=
  caps.map (fun c => (c.1, GoVal.str c.2)) ++ raw

/-- Modelled from the spec (section 4.3 state machine):
`Backend.HandleRequest`.  Help requests return the matched path's
static help text; rollback requests delegate to the rollback engine;
any other operation routes, merges captures over raw data, coerces all
declared fields, and invokes the callback registered for the
operation, failing with `ErrUnsupportedPath` when no pattern matches
and `ErrUnsupportedOperation` when the matched path has no callback
for the operation. -/
def Backend.HandleRequest (b : Backend) (req : Request) : HandleResult :=
  match req.Operation with
  | Operation.help =>
      match route b.Paths req.Path with
      | none => HandleResult.mk (Except.error BErr.ErrUnsupportedPath) req.Storage []
      | some p =>
          HandleResult.mk
            (Except.ok (some (Response.mk
              [("help", Value.vstr (p.HelpSynopsis ++ "\n\n" ++ p.HelpDescription))] none)))
            req.Storage []
  | Operation.rollback =>
      match b.Rollback with
      | none => HandleResult.mk (Except.ok none) req.Storage []
      | some clean =>
          let r := runRollback clean b.RollbackMinAge req.Now req.Storage
          HandleResult.mk (Except.ok none) r.1 r.2
  | op =>
      match route b.Paths req.Path with
      | none => HandleResult.mk (Except.error BErr.ErrUnsupportedPath) req.Storage []
      | some p =>
          match alookup p.Callbacks op with
          | none => HandleResult.mk (Except.error BErr.ErrUnsupportedOperation) req.Storage []
          | some f =>
              let caps := (capFull p.Pattern req.Path).getD []
              let fd := FieldData.mk (mergeCaps caps req.Data) p.Fields
              match coerceAll fd p.Fields with
              | Except.error e => HandleResult.mk (Except.error e) req.Storage []
              | Except.ok typed =>
                  match f typed with
                  | Except.error m =>
                      HandleResult.mk (Except.error (BErr.ErrCallback m)) req.Storage []
                  | Except.ok resp =>
                      HandleResult.mk (Except.ok (some resp)) req.Storage []

/-! ## Cassandra credentials secret (`builtin/logical/cassandra/secret_creds.go`)

The renew/revoke callbacks below are embedded from the source file.
Their collaborators `getRole`, `framework.LeaseExtend` and `b.DB` live
in files not part of the given sources and are modelled from the spec.
The second component of each callback's result is the trace of
external actions it performed: the role names passed to `getRole` for
renewal, the CQL statements executed against the session for
revocation. -/

/-- Metadata of a previously issued secret (`logical.Secret`): the
opaque internal data attached at issuance. -/
structure SecretData : Type where
  InternalData : List (String × GoVal)

/-- A named role's stored lease policy (the `roleEntry` returned by
`getRole`). -/
structure RoleEntry : Type where
  Lease : Nat
deriving DecidableEq, Repr

/-- The role region of the storage collaborator. -/
abbrev RoleStorage := List (String × RoleEntry)

/-- Modelled from the spec: `getRole` loads a named lease policy from
storage; a policy that can no longer be loaded is an error (spec
section 4.3: the renewal callback fails "if the referenced policy can
no longer be loaded"). -/
def getRole (storage : RoleStorage) (name : String) : Except String RoleEntry :=
  match alookup storage name with
  | some r => Except.ok r
  | none => Except.error ("role not found: " ++ name)

/-- Modelled from the spec: `framework.LeaseExtend` extends the lease
by the requested increment bounded by the policy's configured ceiling
(spec section 4.3). -/
def LeaseExtend (maxLease increment : Nat) : Except String (Option Response) :=
  Except.ok (some (Response.mk [] (some (min increment maxLease))))

/-- A renew/revoke request for a Cassandra credentials secret: the
issued secret's metadata, the role storage, and the requested lease
increment. -/
structure CassRequest : Type where
  Secret : SecretData
  Storage : RoleStorage
  Increment : Nat

/-- A secret-type definition (`framework.Secret`), durations in
seconds. -/
structure Secret : Type where
  SecretType : String
  Fields : List (String × FieldSchema)
  DefaultDuration : Nat
  DefaultGracePeriod : Nat

/-- `SecretCredsType` of `secret_creds.go`. -/
def SecretCredsType : String := "cassandra"

/-- `secretCreds` of `secret_creds.go`: type tag, response field
schema, default lease duration 1h and grace period 10m. -/
def secretCreds : Secret :=
  Secret.mk SecretCredsType
    [("username", FieldSchema.mk FieldType.TypeString none "Username"),
     ("password", FieldSchema.mk FieldType.TypeString none "Password")]
    3600 600

/-- `secretCredsRenew` of `secret_creds.go`: require the "role"
internal-data key, require it to be a string, load the role, and
delegate to `LeaseExtend` with the role's lease policy.  The second
component is the trace of `getRole` storage lookups performed. -/
def secretCredsRenew (req : CassRequest) : Except String (Option Response) × List String :=
  match alookup req.Secret.InternalData "role" with
  | none => (Except.error "Secret is missing role internal data", [])
  | some roleRaw =>
      match roleRaw with
      | GoVal.str roleName =>
          (match getRole req.Storage roleName with
           | Except.error e => (Except.error ("Unable to load role: " ++ e), [roleName])
           | Except.ok role => (LeaseExtend role.Lease req.Increment, [roleName]))
      | _ => (Except.error "Error converting role internal data to string", [])

/-- The external Cassandra session (`b.DB`): executing a CQL statement
either succeeds or fails. -/
structure CassSession : Type where
  exec : String → Bool

/-- The first CQL statement issued by revocation. -/
def revokeQuery (username : String) : String :=
  "REVOKE ALL PERMISSIONS ON ALL KEYSPACES FROM '" ++ username ++ "'"

/-- The second CQL statement issued by revocation. -/
def dropQuery (username : String) : String :=
  "DROP USER '" ++ username ++ "'"

/-- `secretCredsRevoke` of `secret_creds.go`: require the "username"
internal-data key, require it to be a string, obtain the session, then
revoke all permissions and only on success drop the user.  The second
component is the trace of CQL statements executed, in order. -/
def secretCredsRevoke (req : CassRequest) (session : Except String CassSession) :
    Except String (Option Response) × List String :=
  match alookup req.Secret.InternalData "username" with
  | none => (Except.error "Secret is missing username internal data", [])
  | some usernameRaw =>
      match usernameRaw with
      | GoVal.str username =>
          (match session with
           | Except.error _ => (Except.error "Error getting session", [])
           | Except.ok s =>
               if s.exec (revokeQuery username) then
                 if s.exec (dropQuery username) then
                   (Except.ok none, [revokeQuery username, dropQuery username])
                 else
                   (Except.error ("Error removing user " ++ username),
                    [revokeQuery username, dropQuery username])
               else
                 (Except.error ("Error revoking permissions for user " ++ username),
                  [revokeQuery username]))
      | _ => (Except.error "Error converting username internal data to string", [])

/-! ## Lemmas: literal patterns and routing -/

/-- For a literal (metacharacter-free) pattern, any fuel level of the
matcher has a full match exactly on the identical character list. -/
theorem mtchStep_litL_any (prev : Regex → List Char → List (Caps × List Char))
    (cs : List Char) :
    ∀ s : List Char,
      ((mtchStep prev (Regex.litL cs) s).any (fun p => p.2.isEmpty)) = decide (s = cs) := by
  induction cs with
  | nil =>
      intro s
      cases s <;> simp [Regex.litL, mtchStep]
  | cons c cs ih =>
      intro s
      cases s with
      | nil => simp [Regex.litL, mtchStep]
      | cons x xs =>
          by_cases hx : x = c
          · subst hx
            simp [Regex.litL, mtchStep, ih xs]
          · simp [Regex.litL, mtchStep, hx]

/-- A literal pattern fully matches exactly the identical string. -/
theorem fullMatch_lit (s t : String) : fullMatch (Regex.lit t) s = true ↔ s = t := by
  have h : fullMatch (Regex.lit t) s = decide (s.toList = t.toList) := by
    have hstep : mtch (s.toList.length + 1) = mtchStep (mtch s.toList.length) := rfl
    rw [fullMatch, Regex.lit, hstep, mtchStep_litL_any]
  rw [h]
  constructor
  · intro hd
    exact String.ext (of_decide_eq_true hd)
  · intro he
    subst he
    simp

/-- `route` returns only genuinely matching paths, and only the first
one in registration order. -/
theorem route_some_spec (path : String) :
    ∀ (ps : List Path) (p : Path), route ps path = some p →
      fullMatch p.Pattern path = true ∧
      ∃ pre post, ps = pre ++ p :: post ∧ ∀ q ∈ pre, fullMatch q.Pattern path = false := by
  intro ps
  induction ps with
  | nil => intro p h; simp [route] at h
  | cons hd tl ih =>
      intro p h
      by_cases hm : fullMatch hd.Pattern path = true
      · have hp : hd = p := by simpa [route, hm] using h
        subst hp
        exact ⟨hm, [], tl, rfl, by simp⟩
      · have hm2 : fullMatch hd.Pattern path = false := by
          revert hm; cases fullMatch hd.Pattern path <;> simp
        have h2 : route tl path = some p := by simpa [route, hm2] using h
        obtain ⟨hmatch, pre, post, heq, hpre⟩ := ih p h2
        refine ⟨hmatch, hd :: pre, post, by simp [heq], ?_⟩
        intro q hq
        rcases List.mem_cons.mp hq with hql | hqr
        · subst hql; exact hm2
        · exact hpre q hqr

/-- `route` returns `none` exactly when no registered pattern
matches. -/
theorem route_none_spec (path : String) :
    ∀ ps : List Path, route ps path = none ↔ ∀ p ∈ ps, fullMatch p.Pattern path = false := by
  intro ps
  induction ps with
  | nil => simp [route]
  | cons hd tl ih =>
      by_cases hm : fullMatch hd.Pattern path = true
      · simp [route, hm]
      · have hm2 : fullMatch hd.Pattern path = false := by
          revert hm; cases fullMatch hd.Pattern path <;> simp
        simp [route, hm2, ih]

/-! ## Claim C1 -/

/-- C1: For every sequence of registered Path patterns and every
request path string, `Route` returns the first registered Path (in
registration order) whose pattern, treated as start-and-end-anchored,
matches the entire input path — a literal pattern with no regex
metacharacters matching only the identical string — and returns `none`
when no registered pattern matches; no-match is an `Option.none`, not
an error. -/
theorem Route_first_match (b : Backend) (path : String) :
    (∀ p, b.Route path = some p →
      fullMatch p.Pattern path = true ∧
      ∃ pre post, b.Paths = pre ++ p :: post ∧
        ∀ q ∈ pre, fullMatch q.Pattern path = false) ∧
    (b.Route path = none ↔ ∀ p ∈ b.Paths, fullMatch p.Pattern path = false) ∧
    (∀ t : String, fullMatch (Regex.lit t) path = true ↔ path = t) := by
  refine ⟨?_, ?_, ?_⟩
  · intro p h
    exact route_some_spec path b.Paths p h
  · exact route_none_spec path b.Paths
  · intro t
    exact fullMatch_lit path t

/-- The single-path backend of `TestBackendRoute`'s "exact" case. -/
def pFoo : Path := Path.mk (Regex.lit "foo") [] [] "" ""

def bRoute : Backend := Backend.mk [pFoo] none 0

/-- Witness for C1: routing `"foo"` in `bRoute` returns `pFoo`, which
matches and is first. -/
theorem Route_first_match_witness :
    fullMatch pFoo.Pattern "foo" = true ∧
    ∃ pre post, bRoute.Paths = pre ++ pFoo :: post ∧
      ∀ q ∈ pre, fullMatch q.Pattern "foo" = false :=
  (Route_first_match bRoute "foo").1 pFoo rfl

/-! ## Claim C7 -/

/-- C7: for every request whose path matches a registered Path that has
no callback registered for the requested operation kind,
`HandleRequest` fails with the unsupported-operation error; the whole
result (error, untouched storage, empty cleanup trace) is fixed
independently of every registered callback, so no callback is
invoked. -/
theorem HandleRequest_unsupportedOperation (b : Backend) (req : Request) (p : Path)
    (hHelp : req.Operation ≠ Operation.help)
    (hRb : req.Operation ≠ Operation.rollback)
    (hRoute : route b.Paths req.Path = some p)
    (hCb : alookup p.Callbacks req.Operation = none) :
    b.HandleRequest req =
      HandleResult.mk (Except.error BErr.ErrUnsupportedOperation) req.Storage [] := by
  rcases req with ⟨op, path, data, st, now⟩
  cases op with
  | help => exact absurd rfl hHelp
  | rollback => exact absurd rfl hRb
  | read => simp [Backend.HandleRequest, hRoute, hCb]
  | write => simp [Backend.HandleRequest, hRoute, hCb]
  | delete => simp [Backend.HandleRequest, hRoute, hCb]

/-- The backend of `TestBackendHandleRequest_unsupportedOperation`:
only a read callback is registered on `foo/bar`. -/
def echoValue : OperationFunc := fun typed =>
  Except.ok (Response.mk [("value", (alookup typed "value").getD (Value.vstr ""))] none)

def pFooBar : Path :=
  Path.mk (Regex.lit "foo/bar")
    [("value", FieldSchema.mk FieldType.TypeInt none "")]
    [(Operation.read, echoValue)] "" ""

def bFooBar : Backend := Backend.mk [pFooBar] none 0

/-- Witness for C7: a write request to `foo/bar` with only a read
callback registered yields the unsupported-operation error. -/
theorem HandleRequest_unsupportedOperation_witness :
    bFooBar.HandleRequest
        (Request.mk Operation.write "foo/bar" [("value", GoVal.str "84")] [] 0) =
      HandleResult.mk (Except.error BErr.ErrUnsupportedOperation) [] [] :=
  HandleRequest_unsupportedOperation bFooBar
    (Request.mk Operation.write "foo/bar" [("value", GoVal.str "84")] [] 0) pFooBar
    (by decide) (by decide) rfl rfl

/-! ## Claim C4 -/

/-- C4: for every FieldSchema and every field name absent from the raw
data, `Get` resolves to the schema's configured default when one is
set and otherwise to the declared type's canonical zero value, and
`DefaultOrZero` computes exactly that resolution from the schema alone
(independent of any request); a string schema with default "foo"
resolves to "foo" and one without a default to "". -/
theorem FieldData_default_or_zero :
    (∀ (d : FieldData) (name : String) (s : FieldSchema),
      alookup d.Schema name = some s → alookup d.Raw name = none →
      d.Get name = Except.ok s.DefaultOrZero) ∧
    (∀ s : FieldSchema, s.DefaultOrZero = s.Default.getD (zeroValue s.ftype)) ∧
    (FieldSchema.mk FieldType.TypeString (some (Value.vstr "foo")) "").DefaultOrZero
      = Value.vstr "foo" ∧
    (FieldSchema.mk FieldType.TypeString none "").DefaultOrZero = Value.vstr "" := by
  refine ⟨?_, ?_, rfl, rfl⟩
  · intro d name s h1 h2
    simp [FieldData.Get, h1, h2]
  · intro s
    cases h : s.Default <;> simp [FieldSchema.DefaultOrZero, h]

/-- Witness for C4: a string field with default "foo" absent from raw
data resolves to the default. -/
theorem FieldData_default_or_zero_witness :
    FieldData.Get
        (FieldData.mk []
          [("value", FieldSchema.mk FieldType.TypeString (some (Value.vstr "foo")) "")])
        "value"
      = Except.ok
          (FieldSchema.mk FieldType.TypeString (some (Value.vstr "foo")) "").DefaultOrZero :=
  FieldData_default_or_zero.1
    (FieldData.mk []
      [("value", FieldSchema.mk FieldType.TypeString (some (Value.vstr "foo")) "")])
    "value" (FieldSchema.mk FieldType.TypeString (some (Value.vstr "foo")) "") rfl rfl

/-! ## Claim C2 -/

/-- A run of digits with a nonempty start (or an already-started
accumulator) always parses. -/
theorem parseDigitsAux_isSome :
    ∀ (l : List Char) (acc : Option Nat), l.all Char.isDigit = true →
      (acc.isSome = true ∨ l ≠ []) → (parseDigitsAux acc l).isSome = true := by
  intro l
  induction l with
  | nil =>
      intro acc _ hne
      rcases hne with hs | hne
      · simpa [parseDigitsAux] using hs
      · exact absurd rfl hne
  | cons c rest ih =>
      intro acc hall _
      rw [List.all_cons, Bool.and_eq_true] at hall
      simp [parseDigitsAux, hall.1]
      exact ih (some ((acc.getD 0) * 10 + (c.toNat - 48))) hall.2 (Or.inl rfl)

/-- A well-formed decimal character list parses to an integer. -/
theorem parseIntL_isSome : ∀ l : List Char, isDecimalIntL l = true →
    (parseIntL l).isSome = true := by
  intro l h
  cases l with
  | nil => simp [isDecimalIntL] at h
  | cons c rest =>
      simp only [isDecimalIntL] at h
      simp only [parseIntL]
      by_cases hc : c = '-'
      · rw [if_pos hc] at h ⊢
        rw [Bool.and_eq_true, Bool.not_eq_true'] at h
        have hne : rest ≠ [] := by
          intro he
          rw [he] at h
          exact absurd h.1 (by simp)
        obtain ⟨n, hn⟩ :=
          Option.isSome_iff_exists.mp (parseDigitsAux_isSome rest none h.2 (Or.inr hne))
        rw [hn]
        rfl
      · rw [if_neg hc] at h ⊢
        obtain ⟨n, hn⟩ :=
          Option.isSome_iff_exists.mp
            (parseDigitsAux_isSome (c :: rest) none h (Or.inr (by simp)))
        rw [hn]
        rfl

/-- A well-formed decimal string parses to an integer. -/
theorem parseIntString_isSome (s : String) (h : isDecimalIntString s = true) :
    (parseIntString s).isSome = true :=
  parseIntL_isSome s.toList h

/-- C2: for every read request whose path matches a registered Path, a
raw field value that is a well-formed textual representation of the
declared integer type coerces successfully before the callback runs;
and concretely, the `foo/bar` backend with integer field `value` and
an echoing read callback answers a read of `foo/bar` with raw data
`{value: "42"}` by `{value: 42}` with no error. -/
theorem HandleRequest_int_coercion :
    (∀ (field s : String), isDecimalIntString s = true →
      ∃ n, coerceValue field FieldType.TypeInt (GoVal.str s) = Except.ok (Value.vint n)) ∧
    bFooBar.HandleRequest
        (Request.mk Operation.read "foo/bar" [("value", GoVal.str "42")] [] 0) =
      HandleResult.mk (Except.ok (some (Response.mk [("value", Value.vint 42)] none))) [] [] := by
  constructor
  · intro field s h
    have hsome := parseIntString_isSome s h
    obtain ⟨n, hn⟩ := Option.isSome_iff_exists.mp hsome
    exact ⟨n, by simp [coerceValue, hn]⟩
  · rfl

/-- Witness for C2: the decimal string "42" is well formed and coerces
for an integer field. -/
theorem HandleRequest_int_coercion_witness :
    ∃ n, coerceValue "value" FieldType.TypeInt (GoVal.str "42") = Except.ok (Value.vint n) :=
  HandleRequest_int_coercion.1 "value" "42" (by decide)

/-! ## Claim C3 -/

/-- A captured name resolves, in the merged raw data, to the captured
string regardless of the raw request data. -/
theorem alookup_mergeCaps (caps : Caps) (raw : List (String × GoVal)) (n v : String)
    (h : alookup caps n = some v) :
    alookup (mergeCaps caps raw) n = some (GoVal.str v) := by
  induction caps with
  | nil => simp [alookup] at h
  | cons c rest ih =>
      rcases c with ⟨k, val⟩
      by_cases hk : k = n
      · subst hk
        simp [alookup] at h
        simp [mergeCaps, alookup, h]
      · simp [alookup, hk] at h
        simpa [mergeCaps, alookup, hk] using ih h

/-- Every schema field resolves in the coerced data to exactly what
`Get` computes for it from the merged raw data. -/
theorem coerceAll_lookup (d : FieldData) :
    ∀ (l : List (String × FieldSchema)) (typed : List (String × Value)) (n : String)
      (s : FieldSchema),
      coerceAll d l = Except.ok typed → alookup l n = some s →
      ∃ v, d.Get n = Except.ok v ∧ alookup typed n = some v := by
  intro l
  induction l with
  | nil => intro typed n s _ hl; simp [alookup] at hl
  | cons hd tl ih =>
      intro typed n s h hl
      rcases hd with ⟨m, s'⟩
      cases hg : d.Get m with
      | error e => simp [coerceAll, hg] at h
      | ok v =>
          cases hr : coerceAll d tl with
          | error e => simp [coerceAll, hg, hr] at h
          | ok vs =>
              have ht : (m, v) :: vs = typed := by simpa [coerceAll, hg, hr] using h
              by_cases hm : m = n
              · subst hm
                refine ⟨v, hg, ?_⟩
                rw [← ht]
                simp [alookup]
              · simp [alookup, hm] at hl
                obtain ⟨w, hw1, hw2⟩ := ih vs n s hr hl
                refine ⟨w, hw1, ?_⟩
                rw [← ht]
                simpa [alookup, hm] using hw2

/-- The path of `TestBackendHandleRequest_urlPriority`: pattern
`foo/(?P<value>\d+)` with integer field `value` and the echoing read
callback. -/
def pFooNum : Path :=
  Path.mk
    (Regex.cat (Regex.lit "foo/") (Regex.group "value" (Regex.plus (Regex.cls CClass.digit))))
    [("value", FieldSchema.mk FieldType.TypeInt none "")]
    [(Operation.read, echoValue)] "" ""

def bFooNum : Backend := Backend.mk [pFooNum] none 0

/-- C3: for every request whose path matches a pattern with named
capture groups, the captured substrings are merged into the field data
before coercion and take precedence over same-named raw request-data
keys: the value the coerced data holds for a captured field is the
coercion of the captured substring.  Concretely, pattern
`foo/(?P<value>\d+)` against path `foo/42` with raw data
`{value: "84"}` yields coerced field value 42, not 84. -/
theorem HandleRequest_capture_priority :
    (∀ (caps : Caps) (raw : List (String × GoVal)) (n v : String),
      alookup caps n = some v → alookup (mergeCaps caps raw) n = some (GoVal.str v)) ∧
    (∀ (b : Backend) (req : Request) (p : Path) (f : OperationFunc)
        (caps : Caps) (typed : List (String × Value)) (n v : String) (s : FieldSchema),
      route b.Paths req.Path = some p →
      alookup p.Callbacks req.Operation = some f →
      capFull p.Pattern req.Path = some caps →
      coerceAll (FieldData.mk (mergeCaps caps req.Data) p.Fields) p.Fields = Except.ok typed →
      alookup caps n = some v → alookup p.Fields n = some s →
      ∃ tv, coerceValue n s.ftype (GoVal.str v) = Except.ok tv ∧ alookup typed n = some tv) ∧
    bFooNum.HandleRequest
        (Request.mk Operation.read "foo/42" [("value", GoVal.str "84")] [] 0) =
      HandleResult.mk (Except.ok (some (Response.mk [("value", Value.vint 42)] none))) [] [] := by
  refine ⟨alookup_mergeCaps, ?_, rfl⟩
  intro b req p f caps typed n v s _ _ _ hco hcap hfield
  obtain ⟨tv, hget, hty⟩ :=
    coerceAll_lookup (FieldData.mk (mergeCaps caps req.Data) p.Fields) p.Fields typed n s hco
      hfield
  refine ⟨tv, ?_, hty⟩
  have hraw : alookup (mergeCaps caps req.Data) n = some (GoVal.str v) :=
    alookup_mergeCaps caps req.Data n v hcap
  rw [FieldData.Get] at hget
  simp only at hget
  rw [hfield, hraw] at hget
  exact hget

/-- Witness for C3: the concrete `urlPriority` scenario instantiates
the capture-priority statement. -/
theorem HandleRequest_capture_priority_witness :
    ∃ tv, coerceValue "value" (FieldSchema.mk FieldType.TypeInt none "").ftype
        (GoVal.str "42") = Except.ok tv ∧
      alookup [("value", Value.vint 42)] "value" = some tv :=
  HandleRequest_capture_priority.2.1 bFooNum
    (Request.mk Operation.read "foo/42" [("value", GoVal.str "84")] [] 0)
    pFooNum echoValue [("value", "42")] [("value", Value.vint 42)] "value" "42"
    (FieldSchema.mk FieldType.TypeInt none "")
    rfl rfl rfl rfl rfl rfl

/-! ## Rollback-engine lemmas -/

/-- Number of cleanup invocations a pass made for a given WAL key. -/
def countCalls (log : List (String × String × GoVal)) (k : String) : Nat :=
  log.countP (fun c => decide (c.1 = k))

/-- Every cleanup invocation of a pass concerns a key present in the
storage it ran on. -/
theorem runRollback_calls_sub (clean : String → GoVal → Bool) (minAge now : Nat) :
    ∀ st : Storage, ∀ c ∈ (runRollback clean minAge now st).2, c.1 ∈ st.map Prod.fst := by
  intro st
  induction st with
  | nil => intro c hc; simp [runRollback] at hc
  | cons hd tl ih =>
      intro c hc
      rcases hd with ⟨k', e'⟩
      by_cases hage : minAge ≤ now - e'.CreatedAt
      · by_cases hcl : clean e'.Kind e'.Data = true
        · simp only [runRollback, hage, hcl, if_pos, if_true] at hc
          rcases List.mem_cons.mp (by simpa using hc) with hh | ht
          · simp [hh]
          · simpa using Or.inr (ih c ht)
        · simp only [runRollback, hage, if_pos] at hc
          rw [if_neg (by simpa using hcl)] at hc
          rcases List.mem_cons.mp (by simpa using hc) with hh | ht
          · simp [hh]
          · simpa using Or.inr (ih c ht)
      · simp only [runRollback, if_neg hage] at hc
        simpa using Or.inr (ih c (by simpa using hc))

/-- A pass makes no cleanup invocation for a key absent from its
storage. -/
theorem countCalls_runRollback_zero (clean : String → GoVal → Bool) (minAge now : Nat)
    (st : Storage) (k : String) (h : k ∉ st.map Prod.fst) :
    countCalls (runRollback clean minAge now st).2 k = 0 := by
  rw [countCalls, List.countP_eq_zero]
  intro c hc
  simp only [decide_eq_true_eq]
  intro he
  exact h (he ▸ runRollback_calls_sub clean minAge now st c hc)

/-- Entries surviving a pass were already in the storage the pass ran
on. -/
theorem runRollback_storage_sub (clean : String → GoVal → Bool) (minAge now : Nat) :
    ∀ st : Storage, ∀ x ∈ (runRollback clean minAge now st).1, x ∈ st := by
  intro st
  induction st with
  | nil => intro x hx; simp [runRollback] at hx
  | cons hd tl ih =>
      intro x hx
      rcases hd with ⟨k', e'⟩
      by_cases hage : minAge ≤ now - e'.CreatedAt
      · by_cases hcl : clean e'.Kind e'.Data = true
        · simp only [runRollback, hage, hcl, if_pos, if_true] at hx
          exact List.mem_cons_of_mem _ (ih x hx)
        · simp only [runRollback, hage, if_pos] at hx
          rw [if_neg (by simpa using hcl)] at hx
          rcases List.mem_cons.mp (by simpa using hx) with hh | ht
          · simp [hh]
          · exact List.mem_cons_of_mem _ (ih x ht)
      · simp only [runRollback, if_neg hage] at hx
        rcases List.mem_cons.mp (by simpa using hx) with hh | ht
        · simp [hh]
        · exact List.mem_cons_of_mem _ (ih x ht)

/-- Age gate and exactly-once accounting of one rollback pass, per
entry of a storage with distinct keys. -/
theorem runRollback_count (clean : String → GoVal → Bool) (minAge now : Nat) :
    ∀ st : Storage, (st.map Prod.fst).Nodup → ∀ (k : String) (e : WALEntry),
      (k, e) ∈ st →
      (now - e.CreatedAt < minAge →
        countCalls (runRollback clean minAge now st).2 k = 0) ∧
      (minAge ≤ now - e.CreatedAt →
        countCalls (runRollback clean minAge now st).2 k = 1 ∧
        (k, e.Kind, e.Data) ∈ (runRollback clean minAge now st).2) := by
  intro st
  induction st with
  | nil => intro _ k e hmem; simp at hmem
  | cons hd tl ih =>
      intro hnd k e hmem
      rcases hd with ⟨k', e'⟩
      rw [List.map_cons, List.nodup_cons] at hnd
      rcases List.mem_cons.mp hmem with heq | hmemtl
      · injection heq with hk he
        subst hk
        subst he
        have hz := countCalls_runRollback_zero clean minAge now tl k hnd.1
        constructor
        · intro hyoung
          have hage : ¬ minAge ≤ now - e.CreatedAt := by omega
          simpa [runRollback, hage] using hz
        · intro helig
          by_cases hcl : clean e.Kind e.Data = true
          · constructor
            · simp only [runRollback, helig, hcl, if_pos, if_true]
              simp [countCalls, List.countP_cons] at hz ⊢
              exact hz
            · simp [runRollback, helig, hcl]
          · constructor
            · simp only [runRollback, helig, if_pos]
              rw [if_neg (by simpa using hcl)]
              simp [countCalls, List.countP_cons] at hz ⊢
              exact hz
            · simp only [runRollback, helig, if_pos]
              rw [if_neg (by simpa using hcl)]
              simp
      · have hk : ¬ k' = k := by
          intro he'
          have hmk : k ∈ List.map Prod.fst tl := by
            have h2 := List.mem_map_of_mem Prod.fst hmemtl
            simpa using h2
          apply hnd.1
          rw [he']
          exact hmk
        have hrec := ih hnd.2 k e hmemtl
        constructor
        · intro hyoung
          by_cases hage : minAge ≤ now - e'.CreatedAt
          · by_cases hcl : clean e'.Kind e'.Data = true
            · simp only [runRollback, hage, hcl, if_pos, if_true]
              simpa [countCalls, List.countP_cons, hk] using hrec.1 hyoung
            · simp only [runRollback, hage, if_pos]
              rw [if_neg (by simpa using hcl)]
              simpa [countCalls, List.countP_cons, hk] using hrec.1 hyoung
          · simp only [runRollback, if_neg hage]
            simpa [countCalls] using hrec.1 hyoung
        · intro helig
          refine ⟨?_, ?_⟩
          · by_cases hage : minAge ≤ now - e'.CreatedAt
            · by_cases hcl : clean e'.Kind e'.Data = true
              · simp only [runRollback, hage, hcl, if_pos, if_true]
                simpa [countCalls, List.countP_cons, hk] using (hrec.2 helig).1
              · simp only [runRollback, hage, if_pos]
                rw [if_neg (by simpa using hcl)]
                simpa [countCalls, List.countP_cons, hk] using (hrec.2 helig).1
            · simp only [runRollback, if_neg hage]
              simpa [countCalls] using (hrec.2 helig).1
          · by_cases hage : minAge ≤ now - e'.CreatedAt
            · by_cases hcl : clean e'.Kind e'.Data = true
              · simp only [runRollback, hage, hcl, if_pos, if_true]
                simpa using Or.inr ((hrec.2 helig).2)
              · simp only [runRollback, hage, if_pos]
                rw [if_neg (by simpa using hcl)]
                simpa using Or.inr ((hrec.2 helig).2)
            · simp only [runRollback, if_neg hage]
              simpa using (hrec.2 helig).2

/-- A successfully cleaned eligible entry is deleted: its key is gone
from the surviving storage. -/
theorem runRollback_deleted (clean : String → GoVal → Bool) (minAge now : Nat) :
    ∀ st : Storage, (st.map Prod.fst).Nodup → ∀ (k : String) (e : WALEntry),
      (k, e) ∈ st → minAge ≤ now - e.CreatedAt → clean e.Kind e.Data = true →
      k ∉ ((runRollback clean minAge now st).1.map Prod.fst) := by
  intro st
  induction st with
  | nil => intro _ k e hmem; simp at hmem
  | cons hd tl ih =>
      intro hnd k e hmem helig hcl
      rcases hd with ⟨k', e'⟩
      rw [List.map_cons, List.nodup_cons] at hnd
      rcases List.mem_cons.mp hmem with heq | hmemtl
      · injection heq with hk he
        subst hk
        subst he
        simp only [runRollback, helig, hcl, if_pos, if_true]
        intro hcon
        obtain ⟨x, hx1, hx2⟩ := List.mem_map.mp hcon
        have hmk : x.1 ∈ List.map Prod.fst tl := by
          have h2 :=
            List.mem_map_of_mem Prod.fst (runRollback_storage_sub clean minAge now tl x hx1)
          simpa using h2
        apply hnd.1
        rw [← hx2]
        exact hmk
      · have hk : ¬ k' = k := by
          intro he'
          have hmk : k ∈ List.map Prod.fst tl := by
            have h2 := List.mem_map_of_mem Prod.fst hmemtl
            simpa using h2
          apply hnd.1
          rw [he']
          exact hmk
        have hrec := ih hnd.2 k e hmemtl helig hcl
        by_cases hage : minAge ≤ now - e'.CreatedAt
        · by_cases hcl' : clean e'.Kind e'.Data = true
          · simp only [runRollback, hage, hcl', if_pos, if_true]
            exact hrec
          · simp only [runRollback, hage, if_pos]
            rw [if_neg (by simpa using hcl')]
            simp only [List.map_cons]
            intro hcon
            rcases List.mem_cons.mp hcon with hh | ht
            · exact hk hh.symm
            · exact hrec ht
        · simp only [runRollback, if_neg hage]
          simp only [List.map_cons]
          intro hcon
          rcases List.mem_cons.mp hcon with hh | ht
          · exact hk hh.symm
          · exact hrec ht

/-- An entry whose cleanup fails (or that is still too young) is
retained for a future pass. -/
theorem runRollback_kept (clean : String → GoVal → Bool) (minAge now : Nat) :
    ∀ st : Storage, ∀ (k : String) (e : WALEntry),
      (k, e) ∈ st → clean e.Kind e.Data = false →
      (k, e) ∈ (runRollback clean minAge now st).1 := by
  intro st
  induction st with
  | nil => intro k e hmem; simp at hmem
  | cons hd tl ih =>
      intro k e hmem hcl
      rcases hd with ⟨k', e'⟩
      rcases List.mem_cons.mp hmem with heq | hmemtl
      · injection heq with hk he
        subst hk
        subst he
        by_cases hage : minAge ≤ now - e.CreatedAt
        · simp only [runRollback, hage, if_pos]
          rw [if_neg (by simp [hcl])]
          simp
        · simp only [runRollback, if_neg hage]
          simp
      · have hrec := ih k e hmemtl hcl
        by_cases hage : minAge ≤ now - e'.CreatedAt
        · by_cases hcl' : clean e'.Kind e'.Data = true
          · simp only [runRollback, hage, hcl', if_pos, if_true]
            exact hrec
          · simp only [runRollback, hage, if_pos]
            rw [if_neg (by simpa using hcl')]
            simpa using Or.inr hrec
        · simp only [runRollback, if_neg hage]
          simpa using Or.inr hrec

/-- A rollback request never fails, whatever the per-entry cleanup
outcomes were. -/
theorem HandleRequest_rollback_ok (b : Backend) (req : Request)
    (h : req.Operation = Operation.rollback) :
    (b.HandleRequest req).result = Except.ok none := by
  rcases req with ⟨op, path, data, st, now⟩
  simp only at h
  subst h
  cases hb : b.Rollback <;> simp [Backend.HandleRequest, hb]

/-! ## Claims C5 and C6 -/

/-- The always-succeeding cleanup callback of the rollback tests. -/
def cbTrue : String → GoVal → Bool := fun _ _ => true

/-- The WAL entry recorded by `PutWAL(storage, "kind", "foo")` at
tick 0. -/
def entry0 : WALEntry := WALEntry.mk "kind" (GoVal.str "foo") 0

def storage0 : Storage := (PutWAL [] "kind" (GoVal.str "foo") 0).1

/-- C5: in every rollback pass, a persisted WAL entry younger than the
minimum age is never passed to the cleanup callback, and an entry
whose age is at least the minimum age is passed to the cleanup
callback exactly once in that pass. -/
theorem rollback_min_age (clean : String → GoVal → Bool) (minAge now : Nat)
    (st : Storage) (hnd : (st.map Prod.fst).Nodup) (k : String) (e : WALEntry)
    (hmem : (k, e) ∈ st) :
    (now - e.CreatedAt < minAge →
      countCalls (runRollback clean minAge now st).2 k = 0) ∧
    (minAge ≤ now - e.CreatedAt →
      countCalls (runRollback clean minAge now st).2 k = 1 ∧
      (k, e.Kind, e.Data) ∈ (runRollback clean minAge now st).2) :=
  runRollback_count clean minAge now st hnd k e hmem

/-- Witness for C5, mirroring `TestBackendHandleRequest_rollbackMinAge`
(minimum age 5s right after recording: no invocation) and
`TestBackendHandleRequest_rollback` (minimum age 1ms, 10ms later: one
invocation). -/
theorem rollback_min_age_witness :
    countCalls (runRollback cbTrue 5000 0 storage0).2 "wal/0" = 0 ∧
    countCalls (runRollback cbTrue 1 10 storage0).2 "wal/0" = 1 :=
  ⟨(rollback_min_age cbTrue 5000 0 storage0 (by decide) "wal/0" entry0 (by decide)).1
      (by decide),
   ((rollback_min_age cbTrue 1 10 storage0 (by decide) "wal/0" entry0 (by decide)).2
      (by decide)).1⟩

/-- C6: for every eligible WAL entry of a rollback pass, a successful
cleanup deletes the entry from storage — so a second pass performs no
further work for it and cleanup runs exactly once in total — while a
failed cleanup retains the entry for a future pass; and a rollback
request as a whole always returns success, never surfacing per-entry
failures. -/
theorem rollback_cleanup_result (clean : String → GoVal → Bool) (minAge now : Nat)
    (st : Storage) (hnd : (st.map Prod.fst).Nodup) (k : String) (e : WALEntry)
    (hmem : (k, e) ∈ st) (helig : minAge ≤ now - e.CreatedAt) :
    (clean e.Kind e.Data = true →
      k ∉ ((runRollback clean minAge now st).1.map Prod.fst) ∧
      countCalls (runRollback clean minAge now st).2 k = 1 ∧
      ∀ now2,
        countCalls (runRollback clean minAge now2 (runRollback clean minAge now st).1).2 k
          = 0) ∧
    (clean e.Kind e.Data = false → (k, e) ∈ (runRollback clean minAge now st).1) ∧
    (∀ (b : Backend) (req : Request), req.Operation = Operation.rollback →
      (b.HandleRequest req).result = Except.ok none) := by
  refine ⟨?_, ?_, HandleRequest_rollback_ok⟩
  · intro hcl
    have hdel := runRollback_deleted clean minAge now st hnd k e hmem helig hcl
    refine ⟨hdel, ((runRollback_count clean minAge now st hnd k e hmem).2 helig).1, ?_⟩
    intro now2
    exact countCalls_runRollback_zero clean minAge now2 _ k hdel
  · intro hcl
    exact runRollback_kept clean minAge now st k e hmem hcl

/-- Witness for C6: after a successful pass the entry is gone, was
cleaned exactly once, and a second pass does nothing for it. -/
theorem rollback_cleanup_result_witness :
    "wal/0" ∉ (((runRollback cbTrue 1 10 storage0).1).map Prod.fst) ∧
    countCalls (runRollback cbTrue 1 10 storage0).2 "wal/0" = 1 ∧
    countCalls (runRollback cbTrue 1 20 (runRollback cbTrue 1 10 storage0).1).2 "wal/0"
      = 0 := by
  have h :=
    (rollback_cleanup_result cbTrue 1 10 storage0 (by decide) "wal/0" entry0 (by decide)
      (by decide)).1 rfl
  exact ⟨h.1, h.2.1, h.2.2 20⟩

/-! ## Claim C8 -/

/-- C8: a renew request on a Cassandra credentials secret errors (with
no response) exactly when the internal data lacks a usable string
"role" key or the named role cannot be loaded from storage; when the
role loads, renewal succeeds and the granted lease is bounded by the
role's configured lease policy. -/
theorem secretCredsRenew_spec (req : CassRequest) :
    ((∃ msg, (secretCredsRenew req).1 = Except.error msg) ↔
      ¬ ∃ (roleName : String) (role : RoleEntry),
          alookup req.Secret.InternalData "role" = some (GoVal.str roleName) ∧
          getRole req.Storage roleName = Except.ok role) ∧
    (∀ (roleName : String) (role : RoleEntry),
      alookup req.Secret.InternalData "role" = some (GoVal.str roleName) →
      getRole req.Storage roleName = Except.ok role →
      (secretCredsRenew req).1 =
        Except.ok (some (Response.mk [] (some (min req.Increment role.Lease)))) ∧
      min req.Increment role.Lease ≤ role.Lease) := by
  cases hl : alookup req.Secret.InternalData "role" with
  | none =>
      refine ⟨⟨fun _ => ?_, fun _ => ?_⟩, fun rn role hrn => ?_⟩
      · rintro ⟨rn, role, hrn, _⟩
        cases hrn
      · exact ⟨"Secret is missing role internal data", by simp [secretCredsRenew, hl]⟩
      · cases hrn
  | some raw =>
      cases raw with
      | str roleName =>
          cases hr : getRole req.Storage roleName with
          | error e =>
              refine ⟨⟨fun _ => ?_, fun _ => ?_⟩, fun rn role hrn hrole => ?_⟩
              · rintro ⟨rn, role, hrn, hrole⟩
                simp only [Option.some.injEq, GoVal.str.injEq] at hrn
                subst hrn
                rw [hr] at hrole
                cases hrole
              · exact ⟨"Unable to load role: " ++ e, by simp [secretCredsRenew, hl, hr]⟩
              · simp only [Option.some.injEq, GoVal.str.injEq] at hrn
                subst hrn
                rw [hr] at hrole
                cases hrole
          | ok role =>
              refine ⟨⟨?_, fun hne => absurd ⟨roleName, role, rfl, hr⟩ hne⟩,
                fun rn role' hrn hrole => ?_⟩
              · rintro ⟨msg, hmsg⟩
                simp [secretCredsRenew, hl, hr, LeaseExtend] at hmsg
              · simp only [Option.some.injEq, GoVal.str.injEq] at hrn
                subst hrn
                rw [hr] at hrole
                simp only [Except.ok.injEq] at hrole
                subst hrole
                exact ⟨by simp [secretCredsRenew, hl, hr, LeaseExtend], min_le_right _ _⟩
      | int n =>
          refine ⟨⟨fun _ => ?_, fun _ => ?_⟩, fun rn role hrn => ?_⟩
          · rintro ⟨rn, role, hrn, _⟩
            simp at hrn
          · exact ⟨"Error converting role internal data to string",
              by simp [secretCredsRenew, hl]⟩
          · simp at hrn
      | boolV bb =>
          refine ⟨⟨fun _ => ?_, fun _ => ?_⟩, fun rn role hrn => ?_⟩
          · rintro ⟨rn, role, hrn, _⟩
            simp at hrn
          · exact ⟨"Error converting role internal data to string",
              by simp [secretCredsRenew, hl]⟩
          · simp at hrn

/-- The renew request of a secret issued for role "web" whose role
still loads, requesting a 300-tick increment against a 7200-tick
ceiling. -/
def reqRenewOk : CassRequest :=
  CassRequest.mk (SecretData.mk [("role", GoVal.str "web")]) [("web", RoleEntry.mk 7200)] 300

/-- Witness for C8: with a loadable role, renewal succeeds and the
granted lease respects the ceiling. -/
theorem secretCredsRenew_spec_witness :
    (secretCredsRenew reqRenewOk).1 =
      Except.ok (some (Response.mk [] (some (min 300 7200)))) ∧
    min 300 7200 ≤ 7200 :=
  (secretCredsRenew_spec reqRenewOk).2 "web" (RoleEntry.mk 7200) rfl rfl

/-! ## Claim C9 -/

/-- The two CQL statements of revocation are distinct (their fixed
parts have different lengths). -/
theorem dropQuery_ne_revokeQuery (u : String) : dropQuery u ≠ revokeQuery u := by
  intro h
  have hlen := congrArg String.length h
  simp [dropQuery, revokeQuery, String.length_append] at hlen
  exact absurd hlen (by decide)

/-- C9: revocation of a Cassandra credentials secret executes the
permission revocation first and the user drop second; when permission
revocation fails the callback errors and the drop statement is never
executed, and when it succeeds but the drop fails the callback errors
after both statements ran. -/
theorem secretCredsRevoke_order (req : CassRequest) (s : CassSession) (username : String)
    (hu : alookup req.Secret.InternalData "username" = some (GoVal.str username)) :
    (s.exec (revokeQuery username) = true → s.exec (dropQuery username) = true →
      secretCredsRevoke req (Except.ok s) =
        (Except.ok none, [revokeQuery username, dropQuery username])) ∧
    (s.exec (revokeQuery username) = false →
      secretCredsRevoke req (Except.ok s) =
        (Except.error ("Error revoking permissions for user " ++ username),
          [revokeQuery username]) ∧
      dropQuery username ∉ (secretCredsRevoke req (Except.ok s)).2) ∧
    (s.exec (revokeQuery username) = true → s.exec (dropQuery username) = false →
      secretCredsRevoke req (Except.ok s) =
        (Except.error ("Error removing user " ++ username),
          [revokeQuery username, dropQuery username])) := by
  refine ⟨fun h1 h2 => ?_, fun h1 => ?_, fun h1 h2 => ?_⟩
  · simp [secretCredsRevoke, hu, h1, h2]
  · have heq : secretCredsRevoke req (Except.ok s) =
        (Except.error ("Error revoking permissions for user " ++ username),
          [revokeQuery username]) := by
      simp [secretCredsRevoke, hu, h1]
    refine ⟨heq, ?_⟩
    rw [heq]
    intro hmem
    rcases List.mem_singleton.mp hmem with hq
    exact dropQuery_ne_revokeQuery username hq
  · simp [secretCredsRevoke, hu, h1, h2]

/-- A secret issued for user "bob", and a session on which every CQL
statement fails. -/
def reqRevokeBob : CassRequest :=
  CassRequest.mk (SecretData.mk [("username", GoVal.str "bob")]) [] 0

def sessionFail : CassSession := CassSession.mk (fun _ => false)

/-- Witness for C9: when permission revocation fails, revocation
errors having executed only the revoke statement, and the drop
statement was never executed. -/
theorem secretCredsRevoke_order_witness :
    secretCredsRevoke reqRevokeBob (Except.ok sessionFail) =
      (Except.error ("Error revoking permissions for user " ++ "bob"),
        [revokeQuery "bob"]) ∧
    dropQuery "bob" ∉ (secretCredsRevoke reqRevokeBob (Except.ok sessionFail)).2 :=
  (secretCredsRevoke_order reqRevokeBob sessionFail "bob" rfl).2.1 rfl

/-! ## Claim C10 -/

/-- C10: a renew (respectively revoke) request whose internal data
binds "role" (respectively "username") to a non-string value fails
with the conversion error — distinct from the missing-key error —
after performing no storage lookup and no external-session command;
being a total function, the embedded callback cannot panic. -/
theorem internalData_wrong_type (req : CassRequest) (sess : Except String CassSession)
    (v : GoVal) :
    (alookup req.Secret.InternalData "role" = some v → (∀ t, v ≠ GoVal.str t) →
      secretCredsRenew req =
        (Except.error "Error converting role internal data to string", []) ∧
      ("Error converting role internal data to string" : String) ≠
        "Secret is missing role internal data") ∧
    (alookup req.Secret.InternalData "username" = some v → (∀ t, v ≠ GoVal.str t) →
      secretCredsRevoke req sess =
        (Except.error "Error converting username internal data to string", []) ∧
      ("Error converting username internal data to string" : String) ≠
        "Secret is missing username internal data") := by
  constructor
  · intro hl hv
    refine ⟨?_, by decide⟩
    cases v with
    | str t => exact absurd rfl (hv t)
    | int n => simp [secretCredsRenew, hl]
    | boolV bb => simp [secretCredsRenew, hl]
  · intro hl hv
    refine ⟨?_, by decide⟩
    cases v with
    | str t => exact absurd rfl (hv t)
    | int n => simp [secretCredsRevoke, hl]
    | boolV bb => simp [secretCredsRevoke, hl]

/-- A secret whose internal data binds both context keys to integers
instead of strings. -/
def reqWrongTyped : CassRequest :=
  CassRequest.mk (SecretData.mk [("role", GoVal.int 5), ("username", GoVal.int 5)]) [] 0

/-- Witness for C10: integer-typed internal data yields the conversion
errors with empty action traces. -/
theorem internalData_wrong_type_witness :
    (secretCredsRenew reqWrongTyped =
      (Except.error "Error converting role internal data to string", []) ∧
      ("Error converting role internal data to string" : String) ≠
        "Secret is missing role internal data") ∧
    (secretCredsRevoke reqWrongTyped (Except.ok sessionFail) =
      (Except.error "Error converting username internal data to string", []) ∧
      ("Error converting username internal data to string" : String) ≠
        "Secret is missing username internal data") :=
  ⟨(internalData_wrong_type reqWrongTyped (Except.ok sessionFail) (GoVal.int 5)).1 rfl
      (fun t h => by cases h),
   (internalData_wrong_type reqWrongTyped (Except.ok sessionFail) (GoVal.int 5)).2 rfl
      (fun t h => by cases h)⟩

end Vault
